import Mathlib

/-!
# glslang `parseVersions.h`: extension-behaviour registry and error counter

A shallow embedding of `glslang/MachineIndependent/parseVersions.h`:

* `tExtensionBehaviorMap` (the nested class of `TParseVersions`) with its
  four members `mapRaw`, `operator[]`, `find` and `setAll`, over
  `TMap<uintptr_t, TExtensionBehavior>`;
* the part of `TParseVersions` that is defined inline in the header: the
  constructor, `addError`, `getNumErrors`, `setScanner`, `getScanner` and the
  message-flag queries;
* `requireProfile` and `updateExtensionBehaviorRaw`, which the header only
  declares: their bodies are in `Versions.cpp`, and they are modelled here from
  the specification.

A `const char*` is represented by its address (the `uintptr_t` that
`reinterpret_cast` yields); what the characters stored there are is given by
a `Store`.
-/

namespace glslang

/-- Modelled from the spec: the enumeration `TExtensionBehavior` is declared in
`Versions.h`, which accompanies this header; the spec lists its states as
Missing, Disable, Warn, Enable and Require.  `EBhMissing` is the enumerator the
header itself names (in `find`). -/
inductive TExtensionBehavior where
  | EBhMissing
  | EBhRequire
  | EBhEnable
  | EBhWarn
  | EBhDisable
  deriving DecidableEq, Repr

open TExtensionBehavior

/-- The value a `std::map` gives a freshly inserted mapped value
(`TExtensionBehavior()`, value-initialisation).  Modelled from the spec: the
enumerator numbering lives in `Versions.h`; the spec calls Missing the implicit
state of an identity never explicitly set. -/
def TExtensionBehavior.valueInit : TExtensionBehavior := EBhMissing

/-- A `const char*`, as the integer `reinterpret_cast<uintptr_t>` gives. -/
abbrev CharPtr := Nat

/-- The character content (bytes up to the terminating NUL) found at each
address. -/
abbrev Store := CharPtr → List Nat

/-- C `strcmp` on the two byte sequences: negative, zero or positive. -/
def strcmpBytes : List Nat → List Nat → Int
  | [], [] => 0
  | [], _ :: _ => -1
  | _ :: _, [] => 1
  | a :: as, b :: bs =>
    if a < b then -1 else if b < a then 1 else strcmpBytes as bs

/-- C `strcmp` on two pointers into the store. -/
def strcmp (σ : Store) (p q : CharPtr) : Int := strcmpBytes (σ p) (σ q)

/-! ## `TMap<uintptr_t, TExtensionBehavior>` -/

/-- Key lookup in the entry list (`std::map::find`): the mapped value, or
`none` for `end()`. -/
def lookupEntry (k : Nat) : List (Nat × TExtensionBehavior) → Option TExtensionBehavior
  | [] => none
  | (a, b) :: rest => if a = k then some b else lookupEntry k rest

/-- Insertion done by `std::map::operator[]`: an absent key is inserted at its
place in key order with a value-initialised mapped value; a present key leaves
the map as it is. -/
def insertEntry (k : Nat) : List (Nat × TExtensionBehavior) → List (Nat × TExtensionBehavior)
  | [] => [(k, TExtensionBehavior.valueInit)]
  | (a, b) :: rest =>
    if k < a then (k, TExtensionBehavior.valueInit) :: (a, b) :: rest
    else if k = a then (a, b) :: rest
    else (a, b) :: insertEntry k rest

/-- Store through the reference to the mapped value of key `k`. -/
def writeEntry (k : Nat) (v : TExtensionBehavior) :
    List (Nat × TExtensionBehavior) → List (Nat × TExtensionBehavior)
  | [] => []
  | (a, b) :: rest => if a = k then (a, v) :: rest else (a, b) :: writeEntry k v rest

/-- The loop of `setAll`: `iter->second = behavior` at every entry. -/
def setAllEntries (behavior : TExtensionBehavior) :
    List (Nat × TExtensionBehavior) → List (Nat × TExtensionBehavior)
  | [] => []
  | (a, _) :: rest => (a, behavior) :: setAllEntries behavior rest

/-- The loop of `mapRaw`, from `map.begin()` to `map.end()`: the first key
whose characters `strcmp` equal to those of `extensionString`, else
`extensionString` itself. -/
def mapRawLoop (σ : Store) (extensionString : CharPtr) :
    List (Nat × TExtensionBehavior) → CharPtr
  | [] => extensionString
  | (canonical, _) :: rest =>
    if strcmp σ canonical extensionString = 0 then canonical
    else mapRawLoop σ extensionString rest

/-- The keys of an entry list, in iteration order. -/
def keysOf (l : List (Nat × TExtensionBehavior)) : List Nat := l.map Prod.fst

theorem keysOf_insertEntry_mem (k x : Nat) (l : List (Nat × TExtensionBehavior)) :
    x ∈ keysOf (insertEntry k l) ↔ x = k ∨ x ∈ keysOf l := by
  induction l with
  | nil => simp [insertEntry, keysOf]
  | cons e rest ih =>
    obtain ⟨a, b⟩ := e
    unfold insertEntry
    by_cases h1 : k < a
    · simp [h1, keysOf]
    · by_cases h2 : k = a
      · subst h2
        simp [keysOf]
      · simp only [h1, h2, if_false]
        have ih2 := ih
        simp only [keysOf, List.map_cons, List.mem_cons] at ih2 ⊢
        rw [ih2]
        tauto

theorem insertEntry_sorted (k : Nat) (l : List (Nat × TExtensionBehavior))
    (h : (keysOf l).Pairwise (· < ·)) : (keysOf (insertEntry k l)).Pairwise (· < ·) := by
  induction l with
  | nil => simp [insertEntry, keysOf]
  | cons e rest ih =>
    obtain ⟨a, b⟩ := e
    have h0 : (a :: keysOf rest).Pairwise (· < ·) := h
    obtain ⟨hhd, htl⟩ := List.pairwise_cons.mp h0
    unfold insertEntry
    by_cases h1 : k < a
    · simp only [h1, if_true]
      show (k :: a :: keysOf rest).Pairwise (· < ·)
      refine List.pairwise_cons.mpr ⟨?_, h0⟩
      intro x hx
      rcases List.mem_cons.mp hx with hx | hx
      · omega
      · have := hhd x hx
        omega
    · by_cases h2 : k = a
      · simp only [h1, h2, if_false, if_true, lt_self_iff_false]
        exact h0
      · simp only [h1, h2, if_false]
        show (a :: keysOf (insertEntry k rest)).Pairwise (· < ·)
        refine List.pairwise_cons.mpr ⟨?_, ih htl⟩
        intro x hx
        rcases (keysOf_insertEntry_mem k x rest).mp hx with hx | hx
        · omega
        · exact hhd x hx

theorem keysOf_writeEntry (k : Nat) (v : TExtensionBehavior)
    (l : List (Nat × TExtensionBehavior)) : keysOf (writeEntry k v l) = keysOf l := by
  induction l with
  | nil => rfl
  | cons e rest ih =>
    obtain ⟨a, b⟩ := e
    unfold writeEntry
    by_cases h : a = k
    · simp [h, keysOf]
    · simp only [h, if_false]
      show a :: keysOf (writeEntry k v rest) = a :: keysOf rest
      rw [ih]

theorem keysOf_setAllEntries (behavior : TExtensionBehavior)
    (l : List (Nat × TExtensionBehavior)) : keysOf (setAllEntries behavior l) = keysOf l := by
  induction l with
  | nil => rfl
  | cons e rest ih =>
    obtain ⟨a, b⟩ := e
    show a :: keysOf (setAllEntries behavior rest) = a :: keysOf rest
    rw [ih]

/-- `TMap<uintptr_t, TExtensionBehavior>` (a `std::map`): its entries in
iteration order, which is strictly ascending key order. -/
structure TMap where
  entries : List (Nat × TExtensionBehavior)
  ordered : (keysOf entries).Pairwise (· < ·)

/-- A default-constructed (empty) map. -/
def TMap.empty : TMap := ⟨[], List.Pairwise.nil⟩

/-- `std::map::operator[]`, the map it leaves behind. -/
def TMap.subscript (m : TMap) (k : Nat) : TMap :=
  ⟨insertEntry k m.entries, insertEntry_sorted k m.entries m.ordered⟩

/-- Assignment through a reference to the mapped value of `k`. -/
def TMap.write (m : TMap) (k : Nat) (v : TExtensionBehavior) : TMap :=
  ⟨writeEntry k v m.entries, by rw [keysOf_writeEntry]; exact m.ordered⟩

/-- Every mapped value overwritten, keys kept. -/
def TMap.overwriteAll (m : TMap) (behavior : TExtensionBehavior) : TMap :=
  ⟨setAllEntries behavior m.entries, by rw [keysOf_setAllEntries]; exact m.ordered⟩

/-! ## `TParseVersions::tExtensionBehaviorMap` -/

/-- The class `tExtensionBehaviorMap`: its one data member `map`. -/
structure tExtensionBehaviorMap where
  map : TMap

namespace tExtensionBehaviorMap

/-- A default-constructed registry. -/
def fresh : tExtensionBehaviorMap := ⟨TMap.empty⟩

/-- The tracked identities: the keys of `map`, in key order. -/
def keys (self : tExtensionBehaviorMap) : List CharPtr := keysOf self.map.entries

/-- `const char* mapRaw(const char* extensionString)`. -/
def mapRaw (σ : Store) (self : tExtensionBehaviorMap) (extensionString : CharPtr) : CharPtr :=
  mapRawLoop σ extensionString self.map.entries

/-- `TExtensionBehavior& operator[](const char* extensionString)`: the registry
after the call (the returned reference designates the mapped value of
`extensionString`). -/
def subscript (self : tExtensionBehaviorMap) (extensionString : CharPtr) :
    tExtensionBehaviorMap :=
  ⟨self.map.subscript extensionString⟩

/-- The statement `extensionBehavior[extensionString] = behavior`: `operator[]`
followed by the store through the reference it returned. -/
def assign (self : tExtensionBehaviorMap) (extensionString : CharPtr)
    (behavior : TExtensionBehavior) : tExtensionBehaviorMap :=
  ⟨(self.subscript extensionString).map.write extensionString behavior⟩

/-- `TExtensionBehavior find(const char* extensionString)`. -/
def find (self : tExtensionBehaviorMap) (extensionString : CharPtr) : TExtensionBehavior :=
  match lookupEntry extensionString self.map.entries with
  | none => EBhMissing
  | some behavior => behavior

/-- `void setAll(TExtensionBehavior behavior)`. -/
def setAll (self : tExtensionBehaviorMap) (behavior : TExtensionBehavior) :
    tExtensionBehaviorMap :=
  ⟨self.map.overwriteAll behavior⟩

/-- A registry with two tracked identities, at addresses 100 and 200. -/
def sample : tExtensionBehaviorMap :=
  (fresh.assign 200 EBhWarn).assign 100 EBhEnable

/-- A store: address 100 holds "GL", addresses 200, 300 and 400 hold "X",
addresses 600 and 700 hold "Y", every other address the empty string. -/
def sampleStore : Store := fun p =>
  if p = 100 then [71, 76]
  else if p = 200 ∨ p = 300 ∨ p = 400 then [88]
  else if p = 600 ∨ p = 700 then [89]
  else []

/-- The call `find(extensionString)` as a step on the registry: the value
returned and the registry the call leaves.  The body only calls
`std::map::find`, which inserts nothing, and reads `iter->second`. -/
def findCall (self : tExtensionBehaviorMap) (extensionString : CharPtr) :
    TExtensionBehavior × tExtensionBehaviorMap :=
  (self.find extensionString, self)

/-- The call `mapRaw(extensionString)` as a step on the registry: the pointer
returned and the registry the call leaves.  The loop only reads `iter->first`. -/
def mapRawCall (σ : Store) (self : tExtensionBehaviorMap) (extensionString : CharPtr) :
    CharPtr × tExtensionBehaviorMap :=
  (self.mapRaw σ extensionString, self)

end tExtensionBehaviorMap

/-! ## `TParseVersions` -/

/-- Modelled from the spec: `EProfile` is declared in `Versions.h`; a profile is
one bit of a bitmask, held here as that integer. -/
abbrev EProfile := Nat

/-- Modelled from the spec: `EShLanguage` (the stage) is declared in
`ShaderLang.h`; held here as the enumerator's integer value. -/
abbrev EShLanguage := Nat

/-- Modelled from the spec: `EShMessages` is declared in `ShaderLang.h`; the
message flags are a bit set, held here as that integer. -/
abbrev EShMessages := Nat

/-- Modelled from the spec: `SpvVersion` is declared in `Versions.h`; the spec
describes it as a version pair (intermediate-representation target, execution
environment). -/
abbrev SpvVersion := Nat × Nat

/-- The least value of `int` (32 bits, two's complement). -/
def INT_MIN : Int := -2147483648

/-- The greatest value of `int`. -/
def INT_MAX : Int := 2147483647

/-- The `int` that a two's-complement machine holds for the mathematical
integer `x`: `x` reduced modulo `2^32` into `[INT_MIN, INT_MAX]`. -/
def wrapInt (x : Int) : Int := (x + 2147483648) % 4294967296 - 2147483648

/-- The data members of `TParseVersions`.  References (`infoSink`,
`intermediate`) and the scanner pointer are held as addresses; a null pointer is
`0`. -/
structure TParseVersions where
  infoSink : Nat
  version : Int
  profile : EProfile
  language : EShLanguage
  spvVersion : SpvVersion
  forwardCompatible : Bool
  intermediate : Nat
  extensionBehavior : tExtensionBehaviorMap
  messages : EShMessages
  numErrors : Int
  currentScanner : Nat

namespace TParseVersions

/-- The constructor: its member-initialiser list; `extensionBehavior` is not
listed there and so is default-constructed. -/
def construct (interm : Nat) (version : Int) (profile : EProfile) (spvVersion : SpvVersion)
    (language : EShLanguage) (infoSink : Nat) (forwardCompatible : Bool)
    (messages : EShMessages) : TParseVersions where
  infoSink := infoSink
  version := version
  profile := profile
  language := language
  spvVersion := spvVersion
  forwardCompatible := forwardCompatible
  intermediate := interm
  extensionBehavior := tExtensionBehaviorMap.fresh
  messages := messages
  numErrors := 0
  currentScanner := 0

/-- `void addError() { ++numErrors; }` on a 32-bit `int`. -/
def addError (self : TParseVersions) : TParseVersions :=
  { self with numErrors := wrapInt (self.numErrors + 1) }

/-- `int getNumErrors() const { return numErrors; }`. -/
def getNumErrors (self : TParseVersions) : Int := self.numErrors

/-- The context after `n` calls of `addError`. -/
def addErrors : Nat → TParseVersions → TParseVersions
  | 0, self => self
  | n + 1, self => addErrors n (addError self)

/-- A context as the constructor leaves it: version 330, profile bit 1, stage 4. -/
def sampleContext : TParseVersions := construct 0 330 1 (0, 0) 4 0 false 0

/-- A context whose error counter has reached `INT_MAX`, with the two lowest
message-flag bits set. -/
def saturatedContext : TParseVersions :=
  { sampleContext with messages := 3, numErrors := 2147483647 }

/-- `void setScanner(TInputScanner* scanner) { currentScanner = scanner; }`. -/
def setScanner (self : TParseVersions) (scanner : Nat) : TParseVersions :=
  { self with currentScanner := scanner }

/-- `TInputScanner* getScanner() const { return currentScanner; }`. -/
def getScanner (self : TParseVersions) : Nat := self.currentScanner

/-- The context after a sequence of `setScanner` calls, made in list order. -/
def setScanners : List Nat → TParseVersions → TParseVersions
  | [], self => self
  | scanner :: rest, self => setScanners rest (self.setScanner scanner)

/-- `bool relaxedErrors() const { return (messages & EShMsgRelaxedErrors) != 0; }`.
The enumerator `EShMsgRelaxedErrors` is declared in `ShaderLang.h`; its value is
an argument here. -/
def relaxedErrors (EShMsgRelaxedErrors : Nat) (self : TParseVersions) : Bool :=
  (self.messages &&& EShMsgRelaxedErrors) != 0

/-- `bool suppressWarnings() const { return (messages & EShMsgSuppressWarnings) != 0; }`.
The enumerator `EShMsgSuppressWarnings` is declared in `ShaderLang.h`; its value
is an argument here. -/
def suppressWarnings (EShMsgSuppressWarnings : Nat) (self : TParseVersions) : Bool :=
  (self.messages &&& EShMsgSuppressWarnings) != 0

/-- `bool isReadingHLSL() const { return (messages & EShMsgReadHlsl) == EShMsgReadHlsl; }`.
The enumerator `EShMsgReadHlsl` is declared in `ShaderLang.h`; its value is an
argument here. -/
def isReadingHLSL (EShMsgReadHlsl : Nat) (self : TParseVersions) : Bool :=
  (self.messages &&& EShMsgReadHlsl) == EShMsgReadHlsl

/-! ### The checker operations declared here and implemented in `Versions.cpp` -/

/-- Modelled from the spec: the profile enumerators are declared in `Versions.h`;
the spec makes each profile one bit of a bitmask (core, compatibility, es-style).
This is the core profile. -/
def ECoreProfile : EProfile := 2

/-- Modelled from the spec: the compatibility profile, another bit of the
profile bitmask (`Versions.h`). -/
def ECompatibilityProfile : EProfile := 4

/-- Modelled from the spec: the fragment stage, one value of the stage
enumeration (`ShaderLang.h`). -/
def EShLangFragment : EShLanguage := 4

/-- The four reporting primitives `error`, `warn`, `ppError`, `ppWarn` (pure
virtual in this header); a checker operation yields the list of the calls it
made to them. -/
inductive Diagnostic where
  | error
  | warn
  | ppError
  | ppWarn
  deriving DecidableEq, Repr

/-- Modelled from the spec: `error` is pure virtual here and implemented by the
parser; the spec requires a call of `error` to be paired with the counter
increment `addError` ("always increments the error counter"). -/
def reportError (self : TParseVersions) : TParseVersions × List Diagnostic :=
  (self.addError, [Diagnostic.error])

/-- Modelled from the spec: `warn` is pure virtual here; a warning "never
increments the error counter". -/
def reportWarning (self : TParseVersions) : TParseVersions × List Diagnostic :=
  (self, [Diagnostic.warn])

/-- Modelled from the spec: `requireProfile` is declared here and implemented in
`Versions.cpp`.  The spec: it "passes if current profile ∈ allowed set" (an
intersection test on the bitmask); on failure it "emits error ..., increments
error counter". -/
def requireProfile (self : TParseVersions) (loc : Nat) (queryProfiles : Nat)
    (featureDesc : CharPtr) : TParseVersions × List Diagnostic :=
  if self.profile &&& queryProfiles ≠ 0 then (self, []) else reportError self

/-- The characters of `"all"`. -/
def allBytes : List Nat := [97, 108, 108]

/-- The characters of `"require"`. -/
def requireBytes : List Nat := [114, 101, 113, 117, 105, 114, 101]

/-- The characters of `"enable"`. -/
def enableBytes : List Nat := [101, 110, 97, 98, 108, 101]

/-- The characters of `"warn"`. -/
def warnBytes : List Nat := [119, 97, 114, 110]

/-- The characters of `"disable"`. -/
def disableBytes : List Nat := [100, 105, 115, 97, 98, 108, 101]

/-- Modelled from the spec: the keyword parsing of `updateExtensionBehaviorRaw`
(`Versions.cpp`): it "parses keyword into a behavior value"; an unknown keyword
has no value. -/
def parseBehavior (keyword : List Nat) : Option TExtensionBehavior :=
  if strcmpBytes keyword requireBytes = 0 then some EBhRequire
  else if strcmpBytes keyword enableBytes = 0 then some EBhEnable
  else if strcmpBytes keyword warnBytes = 0 then some EBhWarn
  else if strcmpBytes keyword disableBytes = 0 then some EBhDisable
  else none

/-- Modelled from the spec: `updateExtensionBehaviorRaw` is declared here and
implemented in `Versions.cpp`.  The spec: an unknown behavior keyword is an
error; `"all"` with Disable or Warn sets every tracked extension through
`setAll`; `"all"` with Enable or Require is an error and changes nothing; for a
single extension the raw name is canonicalized, an untracked name is an error
with Require and a warning with Enable or Warn, and the behavior is recorded
for the identity. -/
def updateExtensionBehaviorRaw (σ : Store) (self : TParseVersions) (line : Int)
    (extension behavior : CharPtr) : TParseVersions × List Diagnostic :=
  match parseBehavior (σ behavior) with
  | none => reportError self
  | some b =>
    if strcmpBytes (σ extension) allBytes = 0 then
      match b with
      | EBhDisable => ({ self with extensionBehavior := self.extensionBehavior.setAll b }, [])
      | EBhWarn => ({ self with extensionBehavior := self.extensionBehavior.setAll b }, [])
      | _ => reportError self
    else
      let canonical := self.extensionBehavior.mapRaw σ extension
      let tracked := self.extensionBehavior.find canonical ≠ EBhMissing
      let recorded : TParseVersions :=
        { self with extensionBehavior := self.extensionBehavior.assign canonical b }
      if tracked then (recorded, [])
      else
        match b with
        | EBhRequire => reportError recorded
        | EBhEnable => reportWarning recorded
        | EBhWarn => reportWarning recorded
        | _ => (recorded, [])

/-- The configuration of the spec's end-to-end scenario: core profile, version
330, fragment stage; as the constructor leaves it. -/
def coreContext : TParseVersions :=
  construct 0 330 ECoreProfile (0, 0) EShLangFragment 0 false 0

/-- The scenario's configuration with the error counter at `INT_MAX`. -/
def saturatedCoreContext : TParseVersions :=
  { coreContext with numErrors := 2147483647 }

/-- A context with two tracked extensions (at addresses 100 and 200). -/
def trackingContext : TParseVersions :=
  { coreContext with extensionBehavior := tExtensionBehaviorMap.sample }

/-- A store for directives: address 1000 holds "all", 1001 "warn", 1002
"require"; the other addresses are as in `sampleStore`. -/
def directiveStore : Store := fun p =>
  if p = 1000 then allBytes
  else if p = 1001 then warnBytes
  else if p = 1002 then requireBytes
  else tExtensionBehaviorMap.sampleStore p

end TParseVersions

/-! ## Facts about the entry-list operations -/

theorem strcmpBytes_eq_zero_iff (x y : List Nat) : strcmpBytes x y = 0 ↔ x = y := by
  induction x generalizing y with
  | nil => cases y <;> simp [strcmpBytes]
  | cons a as ih =>
    cases y with
    | nil => simp [strcmpBytes]
    | cons b bs =>
      unfold strcmpBytes
      by_cases h1 : a < b
      · have : a ≠ b := by omega
        simp [h1, this]
      · by_cases h2 : b < a
        · have : a ≠ b := by omega
          simp [h1, h2, this]
        · have hab : a = b := by omega
          simp [h1, hab, ih]

theorem strcmp_eq_zero_iff (σ : Store) (p q : CharPtr) : strcmp σ p q = 0 ↔ σ p = σ q :=
  strcmpBytes_eq_zero_iff (σ p) (σ q)

theorem lookupEntry_eq_none_iff (k : Nat) (l : List (Nat × TExtensionBehavior)) :
    lookupEntry k l = none ↔ k ∉ keysOf l := by
  induction l with
  | nil => simp [lookupEntry, keysOf]
  | cons e rest ih =>
    obtain ⟨a, b⟩ := e
    unfold lookupEntry
    by_cases h : a = k
    · simp [h, keysOf]
    · have h2 : ¬ k = a := fun h3 => h h3.symm
      simp only [h, if_false, ih]
      simp [keysOf, h2]

theorem lookupEntry_mem (k : Nat) (b : TExtensionBehavior)
    (l : List (Nat × TExtensionBehavior)) (h : lookupEntry k l = some b) : (k, b) ∈ l := by
  induction l with
  | nil => simp [lookupEntry] at h
  | cons e rest ih =>
    obtain ⟨a, c⟩ := e
    unfold lookupEntry at h
    by_cases h1 : a = k
    · simp only [h1, if_true, Option.some.injEq] at h
      simp [h1, h]
    · simp only [h1, if_false] at h
      exact List.mem_cons_of_mem _ (ih h)

theorem lookupEntry_writeEntry_self (k : Nat) (v : TExtensionBehavior)
    (l : List (Nat × TExtensionBehavior)) (h : k ∈ keysOf l) :
    lookupEntry k (writeEntry k v l) = some v := by
  induction l with
  | nil => simp [keysOf] at h
  | cons e rest ih =>
    obtain ⟨a, b⟩ := e
    unfold writeEntry
    by_cases h1 : a = k
    · simp [h1, lookupEntry]
    · simp only [h1, if_false, lookupEntry]
      apply ih
      have h2 : k = a ∨ k ∈ keysOf rest := by simpa [keysOf] using h
      rcases h2 with h2 | h2
      · exact absurd h2.symm h1
      · exact h2

theorem lookupEntry_setAllEntries (k : Nat) (behavior : TExtensionBehavior)
    (l : List (Nat × TExtensionBehavior)) (h : k ∈ keysOf l) :
    lookupEntry k (setAllEntries behavior l) = some behavior := by
  induction l with
  | nil => simp [keysOf] at h
  | cons e rest ih =>
    obtain ⟨a, b⟩ := e
    unfold setAllEntries
    by_cases h1 : a = k
    · simp [h1, lookupEntry]
    · simp only [h1, if_false, lookupEntry]
      apply ih
      have h2 : k = a ∨ k ∈ keysOf rest := by simpa [keysOf] using h
      rcases h2 with h2 | h2
      · exact absurd h2.symm h1
      · exact h2

theorem mem_keysOf_cons (x a : Nat) (b : TExtensionBehavior)
    (rest : List (Nat × TExtensionBehavior)) :
    x ∈ keysOf ((a, b) :: rest) ↔ x = a ∨ x ∈ keysOf rest := by
  simp [keysOf]

theorem mapRawLoop_content (σ : Store) (s : CharPtr) (l : List (Nat × TExtensionBehavior)) :
    σ (mapRawLoop σ s l) = σ s := by
  induction l with
  | nil => rfl
  | cons e rest ih =>
    obtain ⟨a, b⟩ := e
    unfold mapRawLoop
    by_cases h : strcmp σ a s = 0
    · simp only [h, if_true]
      exact (strcmp_eq_zero_iff σ a s).mp h
    · simp only [h, if_false]
      exact ih

theorem mapRawLoop_no_match (σ : Store) (s : CharPtr) (l : List (Nat × TExtensionBehavior))
    (h : ∀ c ∈ keysOf l, σ c ≠ σ s) : mapRawLoop σ s l = s := by
  induction l with
  | nil => rfl
  | cons e rest ih =>
    obtain ⟨a, b⟩ := e
    unfold mapRawLoop
    have ha : ¬ strcmp σ a s = 0 := fun h0 =>
      h a ((mem_keysOf_cons a a b rest).mpr (Or.inl rfl)) ((strcmp_eq_zero_iff σ a s).mp h0)
    simp only [ha, if_false]
    exact ih (fun c hc => h c ((mem_keysOf_cons c a b rest).mpr (Or.inr hc)))

theorem mapRawLoop_mem (σ : Store) (s : CharPtr) (l : List (Nat × TExtensionBehavior))
    (h : ∃ c ∈ keysOf l, σ c = σ s) : mapRawLoop σ s l ∈ keysOf l := by
  induction l with
  | nil =>
    obtain ⟨c, hc, _⟩ := h
    simp [keysOf] at hc
  | cons e rest ih =>
    obtain ⟨a, b⟩ := e
    unfold mapRawLoop
    by_cases h0 : strcmp σ a s = 0
    · simp only [h0, if_true]
      exact (mem_keysOf_cons a a b rest).mpr (Or.inl rfl)
    · simp only [h0, if_false]
      refine (mem_keysOf_cons _ a b rest).mpr (Or.inr (ih ?_))
      obtain ⟨c, hc, hcs⟩ := h
      rcases (mem_keysOf_cons c a b rest).mp hc with hc | hc
      · subst hc
        exact absurd ((strcmp_eq_zero_iff σ c s).mpr hcs) h0
      · exact ⟨c, hc, hcs⟩

theorem mapRawLoop_le (σ : Store) (s : CharPtr) (l : List (Nat × TExtensionBehavior))
    (hl : (keysOf l).Pairwise (· < ·)) (c : CharPtr) (hc : c ∈ keysOf l) (hcs : σ c = σ s) :
    mapRawLoop σ s l ≤ c := by
  induction l with
  | nil => simp [keysOf] at hc
  | cons e rest ih =>
    obtain ⟨a, b⟩ := e
    have h0 : (a :: keysOf rest).Pairwise (· < ·) := hl
    obtain ⟨hhd, htl⟩ := List.pairwise_cons.mp h0
    unfold mapRawLoop
    by_cases h1 : strcmp σ a s = 0
    · simp only [h1, if_true]
      rcases (mem_keysOf_cons c a b rest).mp hc with hc | hc
      · exact Nat.le_of_eq hc.symm
      · exact Nat.le_of_lt (hhd c hc)
    · simp only [h1, if_false]
      rcases (mem_keysOf_cons c a b rest).mp hc with hc | hc
      · subst hc
        exact absurd ((strcmp_eq_zero_iff σ c s).mpr hcs) h1
      · exact ih htl hc

theorem mapRawLoop_congr (σ : Store) (s t : CharPtr) (l : List (Nat × TExtensionBehavior))
    (hst : σ s = σ t) (h : ∃ c ∈ keysOf l, σ c = σ s) :
    mapRawLoop σ s l = mapRawLoop σ t l := by
  induction l with
  | nil =>
    obtain ⟨c, hc, _⟩ := h
    simp [keysOf] at hc
  | cons e rest ih =>
    obtain ⟨a, b⟩ := e
    unfold mapRawLoop
    by_cases h0 : strcmp σ a s = 0
    · have h1 : strcmp σ a t = 0 :=
        (strcmp_eq_zero_iff σ a t).mpr (((strcmp_eq_zero_iff σ a s).mp h0).trans hst)
      simp only [h0, h1, if_true]
    · have h1 : ¬ strcmp σ a t = 0 := fun h2 =>
        h0 ((strcmp_eq_zero_iff σ a s).mpr (((strcmp_eq_zero_iff σ a t).mp h2).trans hst.symm))
      simp only [h0, h1, if_false]
      apply ih
      obtain ⟨c, hc, hcs⟩ := h
      rcases (mem_keysOf_cons c a b rest).mp hc with hc | hc
      · subst hc
        exact absurd ((strcmp_eq_zero_iff σ c s).mpr hcs) h0
      · exact ⟨c, hc, hcs⟩

namespace tExtensionBehaviorMap

theorem find_of_not_mem (self : tExtensionBehaviorMap) (k : CharPtr) (h : k ∉ self.keys) :
    self.find k = EBhMissing := by
  have h1 : lookupEntry k self.map.entries = none := (lookupEntry_eq_none_iff k _).mpr h
  simp [find, h1]

theorem keys_setAll (self : tExtensionBehaviorMap) (behavior : TExtensionBehavior) :
    (self.setAll behavior).keys = self.keys :=
  keysOf_setAllEntries behavior self.map.entries

theorem find_setAll_entries (self : tExtensionBehaviorMap) (behavior : TExtensionBehavior)
    (k : CharPtr) (hk : k ∈ self.keys) : (self.setAll behavior).find k = behavior := by
  have h := lookupEntry_setAllEntries k behavior self.map.entries hk
  simp [find, setAll, TMap.overwriteAll, h]

/-! ## The registry: `operator[]`, `find`, `setAll` -/

/-- C1: get-after-set.  For every registry state, identity `k` and behavior `X`,
after `extensionBehavior[k] = X` the call `find(k)` returns `X`, whether or not
`k` was tracked before. -/
theorem find_assign_self (self : tExtensionBehaviorMap) (k : CharPtr)
    (X : TExtensionBehavior) : (self.assign k X).find k = X := by
  have hk : k ∈ keysOf (insertEntry k self.map.entries) :=
    (keysOf_insertEntry_mem k k self.map.entries).mpr (Or.inl rfl)
  have h := lookupEntry_writeEntry_self k X (insertEntry k self.map.entries) hk
  simp [find, assign, subscript, TMap.write, TMap.subscript, h]

/-- C2: Missing is the default.  For every registry state and every identity `k`
that is not a key of the map, `find(k)` returns `EBhMissing`; on a freshly
constructed registry `find` returns `EBhMissing` for every identity. -/
theorem find_untracked_missing (self : tExtensionBehaviorMap) (k : CharPtr) :
    (k ∉ self.keys → self.find k = EBhMissing) ∧ fresh.find k = EBhMissing :=
  ⟨find_of_not_mem self k, rfl⟩

theorem find_untracked_missing_witness :
    300 ∉ sample.keys ∧ sample.find 300 = EBhMissing ∧ fresh.find 300 = EBhMissing :=
  ⟨by decide, (find_untracked_missing sample 300).1 (by decide),
    (find_untracked_missing sample 300).2⟩

/-- C3: `setAll` overwrites everything tracked.  For every registry state and
behavior `B`, after `setAll(B)` the call `find(k)` returns `B` for every
identity `k` that was a key of the map before the call. -/
theorem find_setAll_tracked (self : tExtensionBehaviorMap) (B : TExtensionBehavior)
    (k : CharPtr) (hk : k ∈ self.keys) : (self.setAll B).find k = B := by
  have h := lookupEntry_setAllEntries k B self.map.entries hk
  simp [find, setAll, TMap.overwriteAll, h]

theorem find_setAll_tracked_witness :
    100 ∈ sample.keys ∧ sample.find 100 = EBhEnable ∧
      (sample.setAll EBhDisable).find 100 = EBhDisable :=
  ⟨by decide, by decide, find_setAll_tracked sample EBhDisable 100 (by decide)⟩

/-- C4: `setAll` does not change which identities are tracked.  The key set
after `setAll(B)` equals the key set before; an identity untracked before the
call is untracked after it, and `find` on it still returns `EBhMissing`. -/
theorem setAll_keys_unchanged (self : tExtensionBehaviorMap) (B : TExtensionBehavior) :
    (self.setAll B).keys = self.keys ∧
      ∀ k : CharPtr, k ∉ self.keys →
        k ∉ (self.setAll B).keys ∧ (self.setAll B).find k = EBhMissing := by
  refine ⟨keys_setAll self B, ?_⟩
  intro k hk
  have hk2 : k ∉ (self.setAll B).keys := by rw [keys_setAll]; exact hk
  exact ⟨hk2, find_of_not_mem _ k hk2⟩

theorem setAll_keys_unchanged_witness :
    300 ∉ sample.keys ∧ (sample.setAll EBhWarn).keys = [100, 200] ∧
      300 ∉ (sample.setAll EBhWarn).keys ∧ (sample.setAll EBhWarn).find 300 = EBhMissing :=
  ⟨by decide, ((setAll_keys_unchanged sample EBhWarn).1).trans (by decide),
    (setAll_keys_unchanged sample EBhWarn).2 300 (by decide)⟩

/-! ## The registry: `mapRaw` -/

/-- C5: specification of `mapRaw`.  If some tracked identity has the character
content of `s`, `mapRaw(s)` is a tracked identity with that content, the first
one in the key order of the map; if none has, `mapRaw(s)` is `s` itself. -/
theorem mapRaw_spec (σ : Store) (self : tExtensionBehaviorMap) (s : CharPtr) :
    ((∃ c ∈ self.keys, σ c = σ s) →
        self.mapRaw σ s ∈ self.keys ∧ σ (self.mapRaw σ s) = σ s ∧
          ∀ c ∈ self.keys, σ c = σ s → self.mapRaw σ s ≤ c) ∧
      ((∀ c ∈ self.keys, σ c ≠ σ s) → self.mapRaw σ s = s) := by
  constructor
  · intro h
    exact ⟨mapRawLoop_mem σ s _ h, mapRawLoop_content σ s _,
      fun c hc hcs => mapRawLoop_le σ s _ self.map.ordered c hc hcs⟩
  · intro h
    exact mapRawLoop_no_match σ s _ h

theorem mapRaw_spec_witness :
    (∃ c ∈ sample.keys, sampleStore c = sampleStore 300) ∧
      sample.mapRaw sampleStore 300 = 200 ∧
      sample.mapRaw sampleStore 300 ∈ sample.keys ∧
      (∀ c ∈ sample.keys, sampleStore c ≠ sampleStore 600) ∧
      sample.mapRaw sampleStore 600 = 600 :=
  ⟨⟨200, by decide, by decide⟩, by decide,
    ((mapRaw_spec sampleStore sample 300).1 ⟨200, by decide, by decide⟩).1,
    by decide, (mapRaw_spec sampleStore sample 600).2 (by decide)⟩

/-- C6, as stated, fails: addresses 600 and 700 hold the same characters ("Y"),
no tracked identity of `sample` holds them, and `mapRaw` returns each pointer as
it came, two different identities. -/
theorem mapRaw_equal_content_distinct :
    sampleStore 600 = sampleStore 700 ∧
      sample.mapRaw sampleStore 600 = 600 ∧ sample.mapRaw sampleStore 700 = 700 ∧
      sample.mapRaw sampleStore 600 ≠ sample.mapRaw sampleStore 700 := by
  decide

/-- C6, amended: for two strings `s1`, `s2` with equal character content, if
some tracked identity has that content then `mapRaw(s1)` and `mapRaw(s2)` are
the same identity; if none has, each call returns its own argument. -/
theorem mapRaw_content_keyed (σ : Store) (self : tExtensionBehaviorMap) (s1 s2 : CharPtr)
    (h : σ s1 = σ s2) :
    ((∃ c ∈ self.keys, σ c = σ s1) → self.mapRaw σ s1 = self.mapRaw σ s2) ∧
      ((∀ c ∈ self.keys, σ c ≠ σ s1) → self.mapRaw σ s1 = s1 ∧ self.mapRaw σ s2 = s2) := by
  constructor
  · intro hex
    exact mapRawLoop_congr σ s1 s2 _ h hex
  · intro hno
    exact ⟨mapRawLoop_no_match σ s1 _ hno,
      mapRawLoop_no_match σ s2 _ (fun c hc => h ▸ hno c hc)⟩

theorem mapRaw_content_keyed_witness :
    sampleStore 300 = sampleStore 400 ∧ 300 ≠ 400 ∧
      sample.mapRaw sampleStore 300 = sample.mapRaw sampleStore 400 :=
  ⟨by decide, by decide,
    (mapRaw_content_keyed sampleStore sample 300 400 (by decide)).1
      ⟨200, by decide, by decide⟩⟩

/-- C7: canonicalization is idempotent.  For every registry state and string
`s`, `mapRaw(mapRaw(s))` is the same identity as `mapRaw(s)`. -/
theorem mapRaw_idempotent (σ : Store) (self : tExtensionBehaviorMap) (s : CharPtr) :
    self.mapRaw σ (self.mapRaw σ s) = self.mapRaw σ s := by
  by_cases h : ∃ c ∈ self.keys, σ c = σ s
  · have hc : σ (self.mapRaw σ s) = σ s := mapRawLoop_content σ s _
    obtain ⟨c, hck, hcs⟩ := h
    exact mapRawLoop_congr σ (self.mapRaw σ s) s _ hc ⟨c, hck, hcs.trans hc.symm⟩
  · have hno : ∀ c ∈ self.keys, σ c ≠ σ s := fun c hc hcs => h ⟨c, hc, hcs⟩
    have hs : self.mapRaw σ s = s := mapRawLoop_no_match σ s _ hno
    rw [hs, hs]

/-- C8: canonicalization preserves content.  The identity `mapRaw(s)` has
exactly the character content of `s`; hence two strings whose contents differ
are mapped to distinct identities. -/
theorem mapRaw_preserves_content (σ : Store) (self : tExtensionBehaviorMap) :
    (∀ s : CharPtr, σ (self.mapRaw σ s) = σ s) ∧
      ∀ s t : CharPtr, σ s ≠ σ t → self.mapRaw σ s ≠ self.mapRaw σ t := by
  have hc : ∀ s : CharPtr, σ (self.mapRaw σ s) = σ s := fun s => mapRawLoop_content σ s _
  refine ⟨hc, ?_⟩
  intro s t hst heq
  apply hst
  rw [← hc s, ← hc t, heq]

theorem mapRaw_preserves_content_witness :
    sampleStore 300 ≠ sampleStore 600 ∧
      sample.mapRaw sampleStore 300 ≠ sample.mapRaw sampleStore 600 :=
  ⟨by decide, (mapRaw_preserves_content sampleStore sample).2 300 600 (by decide)⟩

/-- C9: lookup of a source-text name through canonicalization.  If exactly one
tracked identity `c` has the character content of the raw string `r`, then
`find(mapRaw(r))` is the behavior stored for `c`; if no tracked identity has
that content, `find(mapRaw(r))` is `EBhMissing`. -/
theorem find_mapRaw (σ : Store) (self : tExtensionBehaviorMap) (r : CharPtr) :
    (∀ c ∈ self.keys, σ c = σ r → (∀ d ∈ self.keys, σ d = σ r → d = c) →
        self.find (self.mapRaw σ r) = self.find c ∧ (c, self.find c) ∈ self.map.entries) ∧
      ((∀ c ∈ self.keys, σ c ≠ σ r) → self.find (self.mapRaw σ r) = EBhMissing) := by
  constructor
  · intro c hc hcr huniq
    have hm : self.mapRaw σ r = c :=
      huniq _ (mapRawLoop_mem σ r _ ⟨c, hc, hcr⟩) (mapRawLoop_content σ r _)
    refine ⟨by rw [hm], ?_⟩
    cases hl : lookupEntry c self.map.entries with
    | none => exact absurd hc ((lookupEntry_eq_none_iff c _).mp hl)
    | some b =>
      have hf : self.find c = b := by simp [find, hl]
      rw [hf]
      exact lookupEntry_mem c b _ hl
  · intro hno
    have hs : self.mapRaw σ r = r := mapRawLoop_no_match σ r _ hno
    rw [hs]
    exact find_of_not_mem self r (fun hr => hno r hr rfl)

theorem find_mapRaw_witness :
    200 ∈ sample.keys ∧ 300 ∉ sample.keys ∧ sampleStore 200 = sampleStore 300 ∧
      sample.find (sample.mapRaw sampleStore 300) = EBhWarn ∧
      sample.find (sample.mapRaw sampleStore 600) = EBhMissing :=
  ⟨by decide, by decide, by decide,
    ((find_mapRaw sampleStore sample 300).1 200 (by decide) (by decide) (by decide)).1.trans
      (by decide),
    (find_mapRaw sampleStore sample 600).2 (by decide)⟩

end tExtensionBehaviorMap

/-! ## The error counter -/

namespace TParseVersions

theorem wrapInt_of_range (x : Int) (hlo : INT_MIN ≤ x) (hhi : x ≤ INT_MAX) : wrapInt x = x := by
  unfold INT_MIN at hlo
  unfold INT_MAX at hhi
  unfold wrapInt
  omega

theorem getNumErrors_addError_eq (self : TParseVersions) :
    self.addError.getNumErrors = wrapInt (self.getNumErrors + 1) := rfl

theorem getNumErrors_addError (self : TParseVersions) (hlo : INT_MIN ≤ self.numErrors)
    (hhi : self.numErrors < INT_MAX) : self.addError.getNumErrors = self.getNumErrors + 1 := by
  have h : wrapInt (self.numErrors + 1) = self.numErrors + 1 :=
    wrapInt_of_range _ (by unfold INT_MIN at *; omega) (by unfold INT_MAX at *; omega)
  simp [addError, getNumErrors, h]

theorem getNumErrors_addErrors (n : Nat) (self : TParseVersions) (hlo : 0 ≤ self.numErrors)
    (hhi : self.numErrors + n ≤ INT_MAX) :
    (addErrors n self).getNumErrors = self.getNumErrors + n := by
  induction n generalizing self with
  | zero => simp [addErrors]
  | succ m ih =>
    have hstep : self.addError.getNumErrors = self.getNumErrors + 1 :=
      getNumErrors_addError self (by unfold INT_MIN; omega) (by push_cast at hhi; omega)
    have hstep2 : self.addError.numErrors = self.numErrors + 1 := hstep
    have h := ih self.addError (by omega) (by push_cast at hhi; omega)
    show (addErrors m self.addError).getNumErrors = self.getNumErrors + ((m + 1 : Nat) : Int)
    rw [h, hstep]
    push_cast
    omega

/-- C10, as stated, fails: after `INT_MAX` calls of `addError` on a fresh
context the counter is `INT_MAX`, and the next call does not raise it by one: no
`int` is `INT_MAX + 1`, and the two's-complement increment yields `INT_MIN`,
which is lower. -/
theorem addError_at_INT_MAX :
    (addErrors 2147483647 sampleContext).getNumErrors = INT_MAX ∧
      (addErrors 2147483647 sampleContext).addError.getNumErrors = INT_MIN ∧
      (addErrors 2147483647 sampleContext).addError.getNumErrors
        ≠ (addErrors 2147483647 sampleContext).getNumErrors + 1 ∧
      (addErrors 2147483647 sampleContext).addError.getNumErrors
        < (addErrors 2147483647 sampleContext).getNumErrors := by
  have h : (addErrors 2147483647 sampleContext).getNumErrors = INT_MAX := by
    have h0 := getNumErrors_addErrors 2147483647 sampleContext (by decide) (by decide)
    rw [h0]
    decide
  have h2 : (addErrors 2147483647 sampleContext).addError.getNumErrors = INT_MIN := by
    rw [getNumErrors_addError_eq, h]
    decide
  refine ⟨h, h2, ?_, ?_⟩
  · rw [h2, h]
    decide
  · rw [h2, h]
    decide

/-- C10, amended: a freshly constructed `TParseVersions` has
`getNumErrors() == 0`; every call of `addError` made while the counter is an
`int` below `INT_MAX` raises `getNumErrors()` by exactly one; so for every `n`
from 0 to `INT_MAX`, after exactly `n` calls of `addError` on a fresh context
`getNumErrors() == n`. -/
theorem error_counter (interm : Nat) (version : Int) (profile : EProfile)
    (spvVersion : SpvVersion) (language : EShLanguage) (infoSink : Nat)
    (forwardCompatible : Bool) (messages : EShMessages) :
    (construct interm version profile spvVersion language infoSink forwardCompatible
        messages).getNumErrors = 0 ∧
      (∀ self : TParseVersions, INT_MIN ≤ self.numErrors → self.numErrors < INT_MAX →
        self.addError.getNumErrors = self.getNumErrors + 1) ∧
      (∀ n : Nat, (n : Int) ≤ INT_MAX →
        (addErrors n (construct interm version profile spvVersion language infoSink
          forwardCompatible messages)).getNumErrors = n) := by
  refine ⟨rfl, getNumErrors_addError, ?_⟩
  intro n hn
  have h := getNumErrors_addErrors n
    (construct interm version profile spvVersion language infoSink forwardCompatible messages)
    (by simp [construct]) (by simpa [construct] using hn)
  rw [h]
  simp [construct, getNumErrors]

theorem error_counter_witness :
    sampleContext.getNumErrors = 0 ∧
      sampleContext.addError.getNumErrors = sampleContext.getNumErrors + 1 ∧
      (addErrors 3 sampleContext).getNumErrors = 3 :=
  ⟨(error_counter 0 330 1 (0, 0) 4 0 false 0).1,
    (error_counter 0 330 1 (0, 0) 4 0 false 0).2.1 sampleContext (by decide) (by decide),
    (error_counter 0 330 1 (0, 0) 4 0 false 0).2.2 3 (by decide)⟩

/-- C11, as stated, fails: in a context whose counter is `INT_MAX` (message
flags set or not) `addError` cannot raise `numErrors` by one; the
two's-complement increment leaves `INT_MIN`. -/
theorem addError_flags_at_INT_MAX :
    saturatedContext.numErrors = INT_MAX ∧
      saturatedContext.addError.numErrors = INT_MIN ∧
      saturatedContext.addError.numErrors ≠ saturatedContext.numErrors + 1 ∧
      ({ saturatedContext with messages := 0 }).addError.numErrors
        ≠ ({ saturatedContext with messages := 0 }).numErrors + 1 := by
  decide

/-- C11, amended: for every context state whose counter is an `int` below
`INT_MAX`, `addError` increases `numErrors` by exactly one whatever the message
flags are; and in every context state `addError` changes no other field
(messages, version, profile, language, forwardCompatible, the extension
registry, the scanner association and the rest are unchanged), so
`suppressWarnings()` and `relaxedErrors()` return the same values before and
after. -/
theorem addError_frame (self : TParseVersions) (relaxedMask suppressMask : Nat) :
    (INT_MIN ≤ self.numErrors → self.numErrors < INT_MAX →
        ∀ messages : EShMessages,
          ({ self with messages := messages }).addError.numErrors = self.numErrors + 1) ∧
      self.addError.messages = self.messages ∧
      self.addError.version = self.version ∧
      self.addError.profile = self.profile ∧
      self.addError.language = self.language ∧
      self.addError.spvVersion = self.spvVersion ∧
      self.addError.forwardCompatible = self.forwardCompatible ∧
      self.addError.extensionBehavior = self.extensionBehavior ∧
      self.addError.currentScanner = self.currentScanner ∧
      self.addError.infoSink = self.infoSink ∧
      self.addError.intermediate = self.intermediate ∧
      self.addError.suppressWarnings suppressMask = self.suppressWarnings suppressMask ∧
      self.addError.relaxedErrors relaxedMask = self.relaxedErrors relaxedMask := by
  refine ⟨?_, rfl, rfl, rfl, rfl, rfl, rfl, rfl, rfl, rfl, rfl, rfl, rfl⟩
  intro hlo hhi messages
  exact getNumErrors_addError { self with messages := messages } hlo hhi

theorem addError_frame_witness :
    ({ sampleContext with messages := 3 }).addError.numErrors = 1 ∧
      ({ sampleContext with messages := 0 }).addError.numErrors = 1 ∧
      sampleContext.addError.messages = sampleContext.messages :=
  ⟨(addError_frame sampleContext 1 2).1 (by decide) (by decide) 3,
    (addError_frame sampleContext 1 2).1 (by decide) (by decide) 0,
    (addError_frame sampleContext 1 2).2.1⟩

/-! ## The scanner association -/

theorem setScanners_append (ss : List Nat) (s : Nat) (self : TParseVersions) :
    setScanners (ss ++ [s]) self = (setScanners ss self).setScanner s := by
  induction ss generalizing self with
  | nil => rfl
  | cons a rest ih => exact ih (self.setScanner a)

/-- C12: scanner association round trip.  A freshly constructed context has
`getScanner() == null`; after `setScanner(s)`, `getScanner()` returns `s`, and
after any sequence of `setScanner` calls it returns the scanner set last;
`setScanner` changes neither the error counter nor the extension registry nor
the compilation configuration. -/
theorem scanner_round_trip (interm : Nat) (version : Int) (profile : EProfile)
    (spvVersion : SpvVersion) (language : EShLanguage) (infoSink : Nat)
    (forwardCompatible : Bool) (messages : EShMessages)
    (self : TParseVersions) (s : Nat) (ss : List Nat) :
    (construct interm version profile spvVersion language infoSink forwardCompatible
        messages).getScanner = 0 ∧
      (self.setScanner s).getScanner = s ∧
      (setScanners (ss ++ [s]) self).getScanner = s ∧
      (self.setScanner s).numErrors = self.numErrors ∧
      (self.setScanner s).extensionBehavior = self.extensionBehavior ∧
      (self.setScanner s).version = self.version ∧
      (self.setScanner s).profile = self.profile ∧
      (self.setScanner s).language = self.language ∧
      (self.setScanner s).spvVersion = self.spvVersion ∧
      (self.setScanner s).forwardCompatible = self.forwardCompatible ∧
      (self.setScanner s).messages = self.messages ∧
      (self.setScanner s).infoSink = self.infoSink ∧
      (self.setScanner s).intermediate = self.intermediate := by
  refine ⟨rfl, rfl, ?_, rfl, rfl, rfl, rfl, rfl, rfl, rfl, rfl, rfl, rfl⟩
  rw [setScanners_append]
  rfl

end TParseVersions

/-! ## The registry: frame properties -/

theorem lookupEntry_insertEntry_ne (j k : Nat) (l : List (Nat × TExtensionBehavior))
    (hjk : j ≠ k) : lookupEntry j (insertEntry k l) = lookupEntry j l := by
  have hkj : ¬ k = j := fun h => hjk h.symm
  induction l with
  | nil => simp [insertEntry, lookupEntry, hkj]
  | cons e rest ih =>
    obtain ⟨a, b⟩ := e
    unfold insertEntry
    by_cases h1 : k < a
    · simp only [h1, if_true]
      rw [lookupEntry]
      simp only [hkj, if_false]
    · by_cases h2 : k = a
      · simp only [h1, h2, if_false, if_true, lt_self_iff_false]
      · simp only [h1, h2, if_false]
        unfold lookupEntry
        rw [ih]

theorem lookupEntry_writeEntry_ne (j k : Nat) (v : TExtensionBehavior)
    (l : List (Nat × TExtensionBehavior)) (hjk : j ≠ k) :
    lookupEntry j (writeEntry k v l) = lookupEntry j l := by
  induction l with
  | nil => rfl
  | cons e rest ih =>
    obtain ⟨a, b⟩ := e
    unfold writeEntry
    by_cases h1 : a = k
    · have h2 : ¬ a = j := fun h => hjk (h.symm.trans h1)
      simp only [h1, if_true]
      unfold lookupEntry
      rw [← h1]
      simp only [h2, if_false]
    · simp only [h1, if_false]
      unfold lookupEntry
      rw [ih]

theorem setAllEntries_setAllEntries (A B : TExtensionBehavior)
    (l : List (Nat × TExtensionBehavior)) :
    setAllEntries B (setAllEntries A l) = setAllEntries B l := by
  induction l with
  | nil => rfl
  | cons e rest ih =>
    obtain ⟨a, b⟩ := e
    show (a, B) :: setAllEntries B (setAllEntries A rest) = (a, B) :: setAllEntries B rest
    rw [ih]

theorem TMap.eq_of_same_entries {m n : TMap} (h : m.entries = n.entries) : m = n := by
  cases m
  cases n
  cases h
  rfl

namespace tExtensionBehaviorMap

theorem eq_of_entries {x y : tExtensionBehaviorMap} (h : x.map.entries = y.map.entries) :
    x = y := by
  cases x
  cases y
  exact congrArg tExtensionBehaviorMap.mk (TMap.eq_of_same_entries h)

/-- C15: queries are read-only.  For every registry state, identity `k` and
string `s`, the calls `find(k)` and `mapRaw(s)` leave the map unchanged (same
key set, same behavior for every key); `find` on an untracked identity does not
make it tracked; either call made twice in a row returns the same result. -/
theorem queries_read_only (σ : Store) (self : tExtensionBehaviorMap) (k s : CharPtr) :
    (self.findCall k).2 = self ∧ (self.mapRawCall σ s).2 = self ∧
      (self.findCall k).2.keys = self.keys ∧
      (∀ j : CharPtr, (self.findCall k).2.find j = self.find j) ∧
      (self.mapRawCall σ s).2.keys = self.keys ∧
      (∀ j : CharPtr, (self.mapRawCall σ s).2.find j = self.find j) ∧
      (k ∉ self.keys → k ∉ (self.findCall k).2.keys) ∧
      ((self.findCall k).2.findCall k).1 = (self.findCall k).1 ∧
      ((self.mapRawCall σ s).2.mapRawCall σ s).1 = (self.mapRawCall σ s).1 :=
  ⟨rfl, rfl, rfl, fun _ => rfl, rfl, fun _ => rfl, fun h => h, rfl, rfl⟩

theorem queries_read_only_witness :
    300 ∉ sample.keys ∧ (sample.findCall 300).1 = EBhMissing ∧
      300 ∉ (sample.findCall 300).2.keys ∧ (sample.findCall 300).2.keys = [100, 200] :=
  ⟨by decide, by decide, (queries_read_only sampleStore sample 300 300).2.2.2.2.2.2.1 (by decide),
    by decide⟩

/-- C16: `operator[]` tracks on access.  For an untracked identity `k`, merely
evaluating `operator[](k)` inserts `k` as a key; a later `setAll(B)` then makes
`find(k)` return `B`, and a later `mapRaw` of any string with the content of `k`
returns a tracked identity; whereas `find(k)` leaves `k` untracked (and after
`setAll(B)` it is still `EBhMissing`). -/
theorem subscript_tracks (σ : Store) (self : tExtensionBehaviorMap) (k : CharPtr)
    (B : TExtensionBehavior) (hk : k ∉ self.keys) :
    k ∈ (self.subscript k).keys ∧
      ((self.subscript k).setAll B).find k = B ∧
      (∀ s : CharPtr, σ s = σ k →
        (self.subscript k).mapRaw σ s ∈ (self.subscript k).keys) ∧
      k ∉ (self.findCall k).2.keys ∧
      ((self.findCall k).2.setAll B).find k = EBhMissing := by
  have hin : k ∈ (self.subscript k).keys :=
    (keysOf_insertEntry_mem k k self.map.entries).mpr (Or.inl rfl)
  refine ⟨hin, find_setAll_entries (self.subscript k) B k hin, ?_, hk, ?_⟩
  · intro s hs
    exact mapRawLoop_mem σ s _ ⟨k, hin, hs.symm⟩
  · apply find_of_not_mem
    rw [keys_setAll]
    exact hk

theorem subscript_tracks_witness :
    300 ∉ sample.keys ∧ (sample.subscript 300).keys = [100, 200, 300] ∧
      ((sample.subscript 300).setAll EBhDisable).find 300 = EBhDisable ∧
      ((sample.findCall 300).2.setAll EBhDisable).find 300 = EBhMissing :=
  ⟨by decide, by decide,
    (subscript_tracks sampleStore sample 300 EBhDisable (by decide)).2.1,
    (subscript_tracks sampleStore sample 300 EBhDisable (by decide)).2.2.2.2⟩

/-- C17: setting one identity leaves the others alone.  For every registry
state, identity `k`, behavior `X` and identity `j` different from `k` (also a
`j` holding the same characters at another address), `find(j)` after
`extensionBehavior[k] = X` equals `find(j)` before, and `j` is tracked after
iff it was tracked before. -/
theorem assign_frame (self : tExtensionBehaviorMap) (k j : CharPtr)
    (X : TExtensionBehavior) (hjk : j ≠ k) :
    (self.assign k X).find j = self.find j ∧
      (j ∈ (self.assign k X).keys ↔ j ∈ self.keys) := by
  constructor
  · have h : lookupEntry j (writeEntry k X (insertEntry k self.map.entries))
        = lookupEntry j self.map.entries := by
      rw [lookupEntry_writeEntry_ne j k X _ hjk, lookupEntry_insertEntry_ne j k _ hjk]
    simp only [find, assign, subscript, TMap.write, TMap.subscript, h]
  · have h1 : (self.assign k X).keys = keysOf (insertEntry k self.map.entries) :=
      keysOf_writeEntry k X _
    rw [h1, keysOf_insertEntry_mem]
    constructor
    · rintro (h | h)
      · exact absurd h hjk
      · exact h
    · exact Or.inr

theorem assign_frame_witness :
    (200 : CharPtr) ≠ 300 ∧ sampleStore 200 = sampleStore 300 ∧
      (sample.assign 300 EBhRequire).find 200 = sample.find 200 ∧
      sample.find 200 = EBhWarn ∧ (sample.assign 300 EBhRequire).find 300 = EBhRequire :=
  ⟨by decide, by decide, (assign_frame sample 300 200 EBhRequire (by decide)).1,
    by decide, by decide⟩

/-- C18: `setAll` is idempotent and last-writer-wins.  The registry after
`setAll(A)` followed by `setAll(B)` equals the registry after `setAll(B)` alone;
`setAll(B)` applied twice equals `setAll(B)` applied once; on an empty registry
`setAll(B)` leaves the registry empty. -/
theorem setAll_last_writer_wins (self : tExtensionBehaviorMap) (A B : TExtensionBehavior) :
    (self.setAll A).setAll B = self.setAll B ∧
      (self.setAll B).setAll B = self.setAll B ∧
      fresh.setAll B = fresh ∧ (fresh.setAll B).keys = [] :=
  ⟨eq_of_entries (setAllEntries_setAllEntries A B self.map.entries),
    eq_of_entries (setAllEntries_setAllEntries B B self.map.entries),
    rfl, rfl⟩

end tExtensionBehaviorMap

/-! ## The checker operations modelled from the spec -/

namespace TParseVersions

theorem updateExtensionBehaviorRaw_all_warn (σ : Store) (self : TParseVersions) (line : Int)
    (extension behavior : CharPtr) (hall : σ extension = allBytes)
    (hwarn : σ behavior = warnBytes) :
    updateExtensionBehaviorRaw σ self line extension behavior
      = ({ self with extensionBehavior := self.extensionBehavior.setAll EBhWarn }, []) := by
  have h1 : parseBehavior warnBytes = some EBhWarn := by decide
  have h2 : strcmpBytes allBytes allBytes = 0 := by decide
  simp only [updateExtensionBehaviorRaw, hall, hwarn, h1, h2, if_true]

theorem updateExtensionBehaviorRaw_all_require (σ : Store) (self : TParseVersions) (line : Int)
    (extension behavior : CharPtr) (hall : σ extension = allBytes)
    (hreq : σ behavior = requireBytes) :
    updateExtensionBehaviorRaw σ self line extension behavior = reportError self := by
  have h1 : parseBehavior requireBytes = some EBhRequire := by decide
  have h2 : strcmpBytes allBytes allBytes = 0 := by decide
  simp only [updateExtensionBehaviorRaw, hall, hreq, h1, h2, if_true]

/-- C13, as stated, fails at the top of the `int` range: with the core profile
and the counter at `INT_MAX`, `requireProfile` for the compatibility profile
emits one error, and the counter becomes `INT_MIN` instead of one more. -/
theorem requireProfile_at_INT_MAX :
    saturatedCoreContext.profile = ECoreProfile ∧
      saturatedCoreContext.profile &&& ECompatibilityProfile = 0 ∧
      (saturatedCoreContext.requireProfile 0 ECompatibilityProfile 0).2 = [Diagnostic.error] ∧
      (saturatedCoreContext.requireProfile 0 ECompatibilityProfile 0).1.getNumErrors = INT_MIN ∧
      (saturatedCoreContext.requireProfile 0 ECompatibilityProfile 0).1.getNumErrors
        ≠ saturatedCoreContext.getNumErrors + 1 := by
  decide

/-- C13, amended: for a context with current profile `P` and an allowed-profile
bitmask, if the bitmask contains `P` then `requireProfile` emits no error and
leaves the context (so the error counter) unchanged; if the bitmask excludes `P`
then it emits exactly one error and, the counter being an `int` below `INT_MAX`,
increases the counter by exactly one. -/
theorem requireProfile_spec (self : TParseVersions) (loc queryProfiles : Nat)
    (featureDesc : CharPtr) :
    (self.profile &&& queryProfiles ≠ 0 →
        (self.requireProfile loc queryProfiles featureDesc).2 = [] ∧
          (self.requireProfile loc queryProfiles featureDesc).1 = self) ∧
      (self.profile &&& queryProfiles = 0 →
        (self.requireProfile loc queryProfiles featureDesc).2 = [Diagnostic.error] ∧
          (INT_MIN ≤ self.numErrors → self.numErrors < INT_MAX →
            (self.requireProfile loc queryProfiles featureDesc).1.getNumErrors
              = self.getNumErrors + 1)) := by
  constructor
  · intro h
    simp [requireProfile, h]
  · intro h
    have hr : self.requireProfile loc queryProfiles featureDesc = reportError self := by
      simp [requireProfile, h]
    rw [hr]
    exact ⟨rfl, fun hlo hhi => getNumErrors_addError self hlo hhi⟩

theorem requireProfile_spec_witness :
    coreContext.profile = ECoreProfile ∧ coreContext.version = 330 ∧
      coreContext.language = EShLangFragment ∧ coreContext.getNumErrors = 0 ∧
      (coreContext.requireProfile 0 ECompatibilityProfile 0).2 = [Diagnostic.error] ∧
      (coreContext.requireProfile 0 ECompatibilityProfile 0).1.getNumErrors = 1 ∧
      (coreContext.requireProfile 0 (ECoreProfile ||| ECompatibilityProfile) 0).2 = [] ∧
      (coreContext.requireProfile 0 (ECoreProfile ||| ECompatibilityProfile) 0).1.getNumErrors
        = 0 :=
  ⟨rfl, rfl, rfl, rfl,
    ((requireProfile_spec coreContext 0 ECompatibilityProfile 0).2 (by decide)).1,
    ((requireProfile_spec coreContext 0 ECompatibilityProfile 0).2 (by decide)).2
      (by decide) (by decide),
    ((requireProfile_spec coreContext 0 (ECoreProfile ||| ECompatibilityProfile) 0).1
      (by decide)).1,
    congrArg getNumErrors
      ((requireProfile_spec coreContext 0 (ECoreProfile ||| ECompatibilityProfile) 0).1
        (by decide)).2⟩

/-- C14: blanket directives.  For every registry state,
`updateExtensionBehaviorRaw(line, "all", "warn")` makes the behavior of every
currently tracked extension Warn, whereas
`updateExtensionBehaviorRaw(line, "all", "require")` emits an error and leaves
the registry, hence the behavior of every tracked extension, as it was. -/
theorem blanket_directives (σ : Store) (self : TParseVersions) (line : Int)
    (extension behavior : CharPtr) (hall : σ extension = allBytes) :
    (σ behavior = warnBytes →
        ∀ k ∈ self.extensionBehavior.keys,
          (updateExtensionBehaviorRaw σ self line extension behavior).1.extensionBehavior.find k
            = EBhWarn) ∧
      (σ behavior = requireBytes →
        (updateExtensionBehaviorRaw σ self line extension behavior).2 = [Diagnostic.error] ∧
          (updateExtensionBehaviorRaw σ self line extension behavior).1.extensionBehavior
            = self.extensionBehavior ∧
          ∀ k : CharPtr,
            (updateExtensionBehaviorRaw σ self line extension behavior).1.extensionBehavior.find k
              = self.extensionBehavior.find k) := by
  constructor
  · intro hwarn k hk
    rw [updateExtensionBehaviorRaw_all_warn σ self line extension behavior hall hwarn]
    exact tExtensionBehaviorMap.find_setAll_entries self.extensionBehavior EBhWarn k hk
  · intro hreq
    rw [updateExtensionBehaviorRaw_all_require σ self line extension behavior hall hreq]
    exact ⟨rfl, rfl, fun _ => rfl⟩

theorem blanket_directives_witness :
    directiveStore 1000 = allBytes ∧ directiveStore 1001 = warnBytes ∧
      directiveStore 1002 = requireBytes ∧
      trackingContext.extensionBehavior.find 100 = EBhEnable ∧
      (updateExtensionBehaviorRaw directiveStore trackingContext 7 1000 1001).1.extensionBehavior.find
          100 = EBhWarn ∧
      (updateExtensionBehaviorRaw directiveStore trackingContext 7 1000 1002).2
        = [Diagnostic.error] ∧
      (updateExtensionBehaviorRaw directiveStore trackingContext 7 1000 1002).1.extensionBehavior.find
          100 = EBhEnable :=
  ⟨rfl, rfl, rfl, by decide,
    ((blanket_directives directiveStore trackingContext 7 1000 1001 rfl).1 rfl)
      100 (by decide),
    ((blanket_directives directiveStore trackingContext 7 1000 1002 rfl).2 rfl).1,
    (((blanket_directives directiveStore trackingContext 7 1000 1002 rfl).2
      rfl).2.2 100).trans (by decide)⟩

end TParseVersions

end glslang
